import Mathlib

/-!
Shallow embedding of the per-channel DSP pipeline of `src/svxlink/trx/Ddr.cpp`
(digital drop receiver): FIR decimator, decimator cascades, frequency
translator, channelizers, FM/AM demodulators, and the DDR registry / tuner
binding.  Definitions are translated directly from the C++ source; machine
floats are modelled by real numbers, `std::complex<float>` by `ℂ`, C++
`assert` failures by `Option.none`.
-/

namespace Ddr

/-! ## FIR Decimator (`Decimator<T>`, Ddr.cpp lines 104-185)

The C++ class is a template over the sample type `T` (instantiated at
`complex<float>` and `float`) with `float` coefficients.  The embedding is
generic over a coefficient type `C` and a sample type `S` with a scalar
action of `C` on `S`, mirroring `coeff[tap] * p_Z[tap]`. -/

structure Decimator (C S : Type) where
  dec_fact : ℕ
  set_coeff : List C
  coeff : List C
  Z : List S

variable {C S : Type}

/-- `taps` is the length of the coefficient vector (the C++ class stores it
separately but it always equals `set_coeff.size()`). -/
def Decimator.taps (d : Decimator C S) : ℕ := d.set_coeff.length

/-- `Decimator::setDecimatorParams`: install factor and coefficients and
zero the delay line of `taps` samples. -/
def Decimator.setDecimatorParams [Zero S] (_d : Decimator C S) (dec_fact : ℕ)
    (c : List C) : Decimator C S :=
  { dec_fact := dec_fact, set_coeff := c, coeff := c,
    Z := List.replicate c.length (0 : S) }

/-- The parameterized constructor `Decimator(dec_fact, coeff, taps)`. -/
def mkDecimator [Zero S] (dec_fact : ℕ) (c : List C) : Decimator C S :=
  { dec_fact := dec_fact, set_coeff := c, coeff := c,
    Z := List.replicate c.length (0 : S) }

/-- `Decimator::setGain`: working coefficients become the base coefficients
scaled by `10^(gain_adjust/20)`; the scale factor is passed in already
computed so that the generic definition stays free of real powers. -/
def Decimator.setGainFactor [Mul C] (d : Decimator C S) (factor : C) :
    Decimator C S :=
  { d with coeff := d.set_coeff.map (fun c => c * factor) }

/-- The FIR sum `Σ coeff[tap] • Z[tap]` over all taps. -/
def firSum [AddCommMonoid S] [SMul C S] (coeff : List C) (Z : List S) : S :=
  (List.zipWith (fun c z => c • z) coeff Z).sum

/-- One delay-line shift: move the line up by `dec_fact` positions and put
the `dec_fact` next input samples at the bottom, newest at index 0
(the loop `for (tap = dec_fact-1; tap >= 0; tap--) p_Z[tap] = *src++`). -/
def shiftIn (dec_fact taps : ℕ) (Z block : List S) : List S :=
  block.reverse ++ Z.take (taps - dec_fact)

/-- The delay line after consuming the first `j` blocks of `dec_fact`
samples from `inp`, starting from delay line `Z`. -/
def delayAfter (dec_fact taps : ℕ) (Z inp : List S) : ℕ → List S
  | 0 => Z
  | j + 1 => shiftIn dec_fact taps (delayAfter dec_fact taps Z inp j)
      ((inp.drop (j * dec_fact)).take dec_fact)

/-- The main loop of `Decimator::decimate`, iterated once per output
sample (`k` = number of blocks): shift the delay line, compute the FIR
sum, recurse on the rest of the input.  Returns the final delay line and
the output samples in order. -/
def decimateGo [AddCommMonoid S] [SMul C S] (coeff : List C)
    (dec_fact taps : ℕ) : ℕ → List S → List S → List S × List S
  | 0, Z, _ => (Z, [])
  | k + 1, Z, inp =>
      let Z' := shiftIn dec_fact taps Z (inp.take dec_fact)
      let r := decimateGo coeff dec_fact taps k Z' (inp.drop dec_fact)
      (r.1, firSum coeff Z' :: r.2)

/-- `Decimator::decimate(out, in)`.  The two C++ `assert`s
(`in.size() % dec_fact == 0` and `taps >= dec_fact`) are modelled by
returning `none` when violated; `dec_fact > 0` guards the division that the
C++ code performs unconditionally.  On success the result is the updated
decimator (new delay line) together with the output vector, which the C++
code builds into a cleared `out`. -/
def Decimator.decimate [AddCommMonoid S] [SMul C S] (d : Decimator C S)
    (inp : List S) : Option (Decimator C S × List S) :=
  if 0 < d.dec_fact ∧ d.dec_fact ≤ d.taps ∧ inp.length % d.dec_fact = 0 then
    let r := decimateGo d.coeff d.dec_fact d.taps (inp.length / d.dec_fact)
      d.Z inp
    some ({ d with Z := r.1 }, r.2)
  else
    none

/-! ## Decimator cascades (`DecimatorMS1` .. `DecimatorMS5`, lines 187-298)

A cascade is an ordered list of decimators; `decFact` is the product of the
stage factors and `decimate` threads the sample vector through the stages
in order. -/

/-- `DecimatorMSk::decFact`: product of the stage factors. -/
def cascadeDecFact (ds : List (Decimator C S)) : ℕ :=
  (ds.map Decimator.dec_fact).prod

/-- `DecimatorMSk::decimate`: run each stage in order on the previous
stage's output; any stage's assertion failure aborts the whole cascade. -/
def cascadeDecimate [AddCommMonoid S] [SMul C S] :
    List (Decimator C S) → List S → Option (List (Decimator C S) × List S)
  | [], inp => some ([], inp)
  | d :: ds, inp =>
      (d.decimate inp).bind fun r =>
        (cascadeDecimate ds r.2).map fun r2 => (r.1 :: r2.1, r2.2)

/-! ## Channelizers (`Channelizer960` lines 631-706, `Channelizer2400`
lines 708-784)

Each variant owns fixed decimators and `setBw` composes a cascade from
them.  The stage decimation factors come from the constructors. -/

inductive Bandwidth | BW_WIDE | BW_20K | BW_10K | BW_6K
  deriving DecidableEq, Repr

/-- Stage decimation factors of the cascade `Channelizer960::setBw` selects
for each bandwidth (constructor factors: 960k→192k is 5, 192k→64k is 3,
64k→32k is 2, 192k→48k is 4, 48k→16k is 3, channel filters are 1). -/
def stages960 : Bandwidth → List ℕ
  | .BW_WIDE => [5]
  | .BW_20K => [5, 3, 2, 1]
  | .BW_10K => [5, 4, 3, 1]
  | .BW_6K => [5, 4, 3, 1]

/-- Stage decimation factors of the cascade `Channelizer2400::setBw`
selects for each bandwidth (constructor factors: 2400k→800k is 3,
800k→160k is 5, 160k→32k is 5, 32k→16k is 2, channel filters are 1). -/
def stages2400 : Bandwidth → List ℕ
  | .BW_WIDE => [3, 5]
  | .BW_20K => [3, 5, 5, 1]
  | .BW_10K => [3, 5, 5, 2, 1]
  | .BW_6K => [3, 5, 5, 2, 1]

/-- Overall decimation factor of the `Channelizer960` cascade
(`dec->decFact()`, the product of the stage factors). -/
def decFact960 (bw : Bandwidth) : ℕ := (stages960 bw).prod

/-- Overall decimation factor of the `Channelizer2400` cascade. -/
def decFact2400 (bw : Bandwidth) : ℕ := (stages2400 bw).prod

/-- `Channelizer960::chSampRate`: `960000 / dec->decFact()`. -/
def chSampRate960 (bw : Bandwidth) : ℕ := 960000 / decFact960 bw

/-- `Channelizer2400::chSampRate`: `2400000 / dec->decFact()`. -/
def chSampRate2400 (bw : Bandwidth) : ℕ := 2400000 / decFact2400 bw

/-- The two channelizer variants, one per supported tuner rate. -/
inductive ChVariant | Ch960 | Ch2400
  deriving DecidableEq, Repr

def tunerRate : ChVariant → ℕ
  | .Ch960 => 960000
  | .Ch2400 => 2400000

def chStages : ChVariant → Bandwidth → List ℕ
  | .Ch960 => stages960
  | .Ch2400 => stages2400

def chDecFact (v : ChVariant) (bw : Bandwidth) : ℕ := (chStages v bw).prod

def chSampRate (v : ChVariant) (bw : Bandwidth) : ℕ :=
  tunerRate v / chDecFact v bw

/-! ## Frequency translator (`Translate`, Ddr.cpp lines 539-612) -/

/-- The private recursive `Translate::gcd(dividend, divisor)` from the
source.  The C++ code never calls it with `divisor == 0` (the offset is
nonzero there); we return `divisor` in that case to keep the function
total. -/
def gcdSrc : ℕ → ℕ → ℕ
  | dividend, divisor =>
    if h : divisor = 0 then divisor
    else if dividend % divisor = 0 then divisor
    else gcdSrc divisor (dividend % divisor)
  termination_by dividend divisor => divisor
  decreasing_by exact Nat.mod_lt _ (Nat.pos_of_ne_zero h)

/-- Translator state: source sample rate, complex-exponential lookup table
and phase index (`samp_rate`, `exp_lut`, `n`). -/
structure Translate where
  samp_rate : ℕ
  exp_lut : List ℂ
  n : ℕ

/-- One lookup-table entry: `exp(complex(0, -2·π·offset·i/samp_rate))`. -/
noncomputable def lutEntry (samp_rate : ℕ) (offset : ℤ) (i : ℕ) : ℂ :=
  Complex.exp ⟨0, -2 * Real.pi * (offset : ℝ) * (i : ℝ) / (samp_rate : ℝ)⟩

/-- `Translate::setOffset`: reset the phase index, clear the table; for a
nonzero offset fill `N = samp_rate / gcd(samp_rate, |offset|)` entries. -/
noncomputable def Translate.setOffset (t : Translate) (offset : ℤ) :
    Translate :=
  if offset = 0 then { t with n := 0, exp_lut := [] }
  else
    { t with
        n := 0
        exp_lut :=
          ((List.range (t.samp_rate / gcdSrc t.samp_rate offset.natAbs)).map
            (lutEntry t.samp_rate offset)) }

/-- The loop body of `Translate::iq_received` in the non-passthrough case:
multiply each sample by the table entry at the phase index and advance the
index, wrapping at the table length. -/
def translateGo (lut : List ℂ) : ℕ → List ℂ → ℕ × List ℂ
  | n, [] => (n, [])
  | n, x :: xs =>
      let r := translateGo lut (if n + 1 = lut.length then 0 else n + 1) xs
      (r.1, x * lut.getD n 0 :: r.2)

/-- `Translate::iq_received(out, in)`: passthrough when the table is empty,
otherwise the per-sample multiply-and-advance loop. -/
def Translate.iq_received (t : Translate) (inp : List ℂ) :
    Translate × List ℂ :=
  if 0 < t.exp_lut.length then
    let r := translateGo t.exp_lut t.n inp
    ({ t with n := r.1 }, r.2)
  else
    (t, inp)

/-! ## FM demodulator (`DemodulatorFm`, Ddr.cpp lines 361-505) -/

/-- C's `atan2(y, x)`, modelled by the argument of the complex number
`x + y·i` (both have range `(-π, π]` with the same quadrant conventions). -/
noncomputable def atan2 (y x : ℝ) : ℝ := Complex.arg ⟨x, y⟩

/-- The normalized sample `samp / |samp|` as an `(i, q)` pair
(`samp.real(), samp.imag()` after `samp = samp / abs(samp)`). -/
noncomputable def nrm (samp : ℂ) : ℝ × ℝ :=
  ((samp / (Complex.abs samp : ℝ)).re, (samp / (Complex.abs samp : ℝ)).im)

/-- The mixed demodulator output for the current normalized sample `cur`
and the stored previous normalized sample `prev`:
`atan2(q·iold − i·qold, i·iold + q·qold)`. -/
noncomputable def psiVal (prev cur : ℝ × ℝ) : ℝ :=
  atan2 (cur.2 * prev.1 - cur.1 * prev.2) (cur.1 * prev.1 + cur.2 * prev.2)

/-- One iteration of the demodulation loop in
`DemodulatorFm::iq_received`: normalize the sample, compute `demod`,
store the normalized components into `(iold, qold)`. -/
noncomputable def fmDemodStep (st : ℝ × ℝ) (samp : ℂ) : (ℝ × ℝ) × ℝ :=
  (nrm samp, psiVal st (nrm samp))

/-- The whole demodulation loop over a batch: the `audio` vector of `demod`
values in input order together with the final `(iold, qold)` state. -/
noncomputable def fmDemodBatch : (ℝ × ℝ) → List ℂ → (ℝ × ℝ) × List ℝ
  | st, [] => (st, [])
  | st, x :: xs =>
      let r0 := fmDemodStep st x
      let r := fmDemodBatch r0.1 xs
      (r.1, r0.2 :: r.2)

/-- `Decimator::setGain(gain_adjust)` at real coefficients: multiply the
base coefficients by `pow(10.0, gain_adjust / 20.0)`. -/
noncomputable def Decimator.setGain {S : Type} (d : Decimator ℝ S)
    (gain_db : ℝ) : Decimator ℝ S :=
  d.setGainFactor ((10 : ℝ) ^ (gain_db / 20))

/-- FM demodulator state: previous normalized sample `(iold, qold)`, the
optional wideband pre-decimator, the 32k→16k audio decimator, and the
wideband-mode flag. -/
structure DemodulatorFm where
  iold : ℝ
  qold : ℝ
  audio_dec_wb : Decimator ℝ ℝ
  audio_dec : Decimator ℝ ℝ
  wb_mode : Bool

/-- `DemodulatorFm::setDemodParams(samp_rate, max_dev)`.  The coefficient
tables `coeff_dec_160k_32k` and `coeff_dec_192k_32k` live in
`DdrFilterCoeffs.h`, which is not among the sources; they are passed in as
the parameters `c160` and `c192` (modelled from the spec: static immutable
FIR coefficient arrays keyed by rate transition). -/
noncomputable def DemodulatorFm.setDemodParams (d : DemodulatorFm)
    (c160 c192 : List ℝ) (samp_rate : ℕ) (max_dev : ℝ) : DemodulatorFm :=
  { d with
      audio_dec :=
        (d.audio_dec.setGain
          (20 * Real.logb 10 ((samp_rate : ℝ) / (2 * Real.pi * max_dev) / 2)))
      wb_mode := decide (32000 < samp_rate)
      audio_dec_wb :=
        (if samp_rate = 160000 then d.audio_dec_wb.setDecimatorParams 5 c160
          else if samp_rate = 192000 then
            d.audio_dec_wb.setDecimatorParams 6 c192
          else d.audio_dec_wb) }

/-- The constructor `DemodulatorFm(samp_rate, max_dev)`: `iold = qold = 1`,
a default-constructed wideband decimator, the 32k→16k audio decimator
(its table `coeff_dec_audio_32k_16k` passed as `cAudio`, modelled from the
spec as for `setDemodParams`), then `setDemodParams`. -/
noncomputable def mkDemodulatorFm (cAudio c160 c192 : List ℝ)
    (samp_rate : ℕ) (max_dev : ℝ) : DemodulatorFm :=
  DemodulatorFm.setDemodParams
    { iold := 1, qold := 1, audio_dec_wb := ⟨0, [], [], []⟩,
      audio_dec := mkDecimator 2 cAudio, wb_mode := false }
    c160 c192 samp_rate max_dev

/-- `DemodulatorFm::iq_received`: demodulate the batch, then decimate the
audio through the wideband stage (wideband mode only) and always through
the 32k→16k audio decimator; the decimated audio goes to the sink. -/
noncomputable def DemodulatorFm.iq_received (d : DemodulatorFm)
    (samples : List ℂ) : Option (DemodulatorFm × List ℝ) :=
  let r := fmDemodBatch (d.iold, d.qold) samples
  let d1 := { d with iold := r.1.1, qold := r.1.2 }
  if d.wb_mode then
    (d.audio_dec_wb.decimate r.2).bind fun a1 =>
      (d.audio_dec.decimate a1.2).map fun a2 =>
        ({ d1 with audio_dec_wb := a1.1, audio_dec := a2.1 }, a2.2)
  else
    (d.audio_dec.decimate r.2).map fun a2 =>
      ({ d1 with audio_dec := a2.1 }, a2.2)

/-! ## AM demodulator (`DemodulatorAm`, Ddr.cpp lines 508-536) -/

/-- AM demodulator state: the audio decimator built with 10 dB gain in the
constructor, unused by `iq_received` (the decimation call is commented
out in the source). -/
structure DemodulatorAm where
  audio_dec : Decimator ℝ ℝ

/-- The constructor `DemodulatorAm()` (its table `coeff_dec_32k_16k` passed
as `cAudio`, modelled from the spec as a static coefficient array). -/
noncomputable def mkDemodulatorAm (cAudio : List ℝ) : DemodulatorAm :=
  ⟨(mkDecimator 2 cAudio).setGain 10⟩

/-- `DemodulatorAm::iq_received`: write one `abs(samp)` per input sample
directly to the sink; the audio decimator is not applied. -/
noncomputable def DemodulatorAm.iq_received (_d : DemodulatorAm)
    (samples : List ℂ) : List ℝ :=
  samples.map (fun s => Complex.abs s)

/-! ## Channel modulation wiring (`Ddr::Channel::setModulation`,
Ddr.cpp lines 830-852) -/

inductive Modulation | MOD_FM | MOD_WBFM | MOD_AM
  deriving DecidableEq, Repr

/-- The channelizer bandwidth `Channel::setModulation` selects. -/
def modBw : Modulation → Bandwidth
  | .MOD_FM => .BW_20K
  | .MOD_WBFM => .BW_WIDE
  | .MOD_AM => .BW_10K

/-- Whether `setModulation` makes the AM demodulator the active one. -/
def modIsAm : Modulation → Bool
  | .MOD_AM => true
  | _ => false

/-! ## DDR registry and tuner binding (Ddr.cpp lines 917-1066) -/

/-- The process-wide `Ddr::ddr_map`, modelled as an association list from
name to instance identifier (insertions only happen for absent names, so
keys stay unique; `Ddr::find` is `List.lookup`). -/
abbrev Registry := List (String × ℕ)

/-- The configuration and collaborator outcomes `Ddr::initialize` reads:
the `FQ` and `WBRX` values (`none` when the key is missing or ill-typed),
the optional `MODULATION` string, whether `WbRxRtlSdr::instance` returned
a tuner, the tuner's sample rate, and whether `LocalRxBase::initialize`
succeeded. -/
structure DdrConfig where
  fq : Option ℝ
  wbrx : Option String
  modulation : Option String
  wbrxCreateOk : Bool
  tunerSampleRate : ℕ
  localRxInitOk : Bool

/-- `Ddr::initialize`: fail on a duplicate name without touching the
registry; otherwise insert the name first, then read `FQ` and `WBRX`,
create the tuner, initialize the channel (checking the tuner rate), parse
`MODULATION` (default `"FM"`), and run the base-class initialization.
Returns the new registry and the boolean result. -/
def ddrInitialize (reg : Registry) (nm : String) (id : ℕ)
    (cfg : DdrConfig) : Registry × Bool :=
  if (List.lookup nm reg).isSome then (reg, false)
  else
    let reg1 : Registry := (nm, id) :: reg
    if cfg.fq.isNone then (reg1, false)
    else if cfg.wbrx.isNone then (reg1, false)
    else if ¬cfg.wbrxCreateOk then (reg1, false)
    else if cfg.tunerSampleRate ≠ 2400000 ∧ cfg.tunerSampleRate ≠ 960000 then
      (reg1, false)
    else if ¬(cfg.modulation.getD "FM" = "FM" ∨
        cfg.modulation.getD "FM" = "WBFM" ∨
        cfg.modulation.getD "FM" = "AM") then (reg1, false)
    else if ¬cfg.localRxInitOk then (reg1, false)
    else (reg1, true)

/-- `Ddr::~Ddr`: remove the entry with this DDR's name from the registry
(`ddr_map.erase` of the entry `find` located). -/
def ddrDestroy (reg : Registry) (nm : String) : Registry :=
  List.eraseP (fun p => p.1 == nm) reg

/-- Truncation of a C `double` to `int` (toward zero), as in the implicit
conversion at `channel->setFqOffset(new_offset)`. -/
noncomputable def realTrunc (x : ℝ) : ℤ :=
  if 0 ≤ x then ⌊x⌋ else ⌈x⌉

/-- The per-DDR state `Ddr::tunerFqChanged` works on: the configured RF
frequency `fq` (a double), the channel's enabled flag and the channel
translator's current integer frequency offset. -/
structure DdrState where
  fq : ℝ
  enabled : Bool
  fqOffset : ℤ

/-- `Ddr::tunerFqChanged(center_fq)` on an initialized DDR whose tuner
sample rate is `R`: compute `new_offset = fq - center_fq`; if
`|new_offset| > R/2 - 12500` (unsigned integer arithmetic on the right,
so `R ≥ 25000` is assumed wherever this model is used) warn and disable —
but only when the channel is still enabled; otherwise set the translator
offset and enable.  The returned boolean records whether the warning was
printed. -/
noncomputable def tunerFqChanged (st : DdrState) (R : ℕ) (center_fq : ℕ) :
    DdrState × Bool :=
  let new_offset : ℝ := st.fq - (center_fq : ℝ)
  if |new_offset| > ((R / 2 - 12500 : ℕ) : ℝ) then
    if st.enabled then ({ st with enabled := false }, true)
    else (st, false)
  else
    ({ st with fqOffset := realTrunc new_offset, enabled := true }, false)

end Ddr

namespace Ddr

variable {C S : Type}

theorem delayAfter_shift (M taps : ℕ) (Z inp : List S) (j : ℕ) :
    delayAfter M taps (shiftIn M taps Z (inp.take M)) (inp.drop M) j =
      delayAfter M taps Z inp (j + 1) := by
  induction j with
  | zero => simp [delayAfter]
  | succ j ih =>
      show shiftIn M taps _ _ = _
      rw [ih]
      show _ = shiftIn M taps _ ((inp.drop ((j + 1) * M)).take M)
      rw [List.drop_drop, Nat.succ_mul, Nat.add_comm M (j * M)]

theorem decimateGo_spec [AddCommMonoid S] [SMul C S] (coeff : List C)
    (M taps : ℕ) (k : ℕ) (Z inp : List S) :
    decimateGo coeff M taps k Z inp =
      (delayAfter M taps Z inp k,
        (List.range k).map fun j =>
          firSum coeff (delayAfter M taps Z inp (j + 1))) := by
  induction k generalizing Z inp with
  | zero => rfl
  | succ k ih =>
      show (_, firSum coeff _ :: _) = _
      rw [ih]
      have hZ : ∀ j, delayAfter M taps (shiftIn M taps Z (inp.take M))
          (inp.drop M) j = delayAfter M taps Z inp (j + 1) :=
        delayAfter_shift M taps Z inp
      refine Prod.ext ?_ ?_
      · exact hZ k
      · show firSum coeff (shiftIn M taps Z (inp.take M)) :: _ = _
        rw [List.range_succ_eq_map]
        simp only [List.map_cons, List.map_map]
        congr 1
        · simp [delayAfter]
        · apply List.map_congr_left
          intro j _
          simp only [Function.comp_apply, hZ (j + 1)]

theorem decimate_eq [AddCommMonoid S] [SMul C S] (d : Decimator C S)
    (inp : List S) (hM : 0 < d.dec_fact) (ht : d.dec_fact ≤ d.taps)
    (hlen : inp.length % d.dec_fact = 0) :
    d.decimate inp =
      some
        ({ d with
            Z := delayAfter d.dec_fact d.taps d.Z inp
              (inp.length / d.dec_fact) },
          (List.range (inp.length / d.dec_fact)).map fun j =>
            firSum d.coeff (delayAfter d.dec_fact d.taps d.Z inp (j + 1))) := by
  unfold Decimator.decimate
  rw [if_pos ⟨hM, ht, hlen⟩, decimateGo_spec]

theorem decimate_length [AddCommMonoid S] [SMul C S] (d d' : Decimator C S)
    (inp out : List S) (h : d.decimate inp = some (d', out)) :
    out.length = inp.length / d.dec_fact := by
  unfold Decimator.decimate at h
  split at h
  · rw [decimateGo_spec] at h
    simp only [Option.some.injEq, Prod.mk.injEq] at h
    rw [← h.2, List.length_map, List.length_range]
  · exact absurd h (by simp)

theorem decimate_isSome_iff [AddCommMonoid S] [SMul C S] (d : Decimator C S)
    (inp : List S) :
    (d.decimate inp).isSome ↔
      0 < d.dec_fact ∧ d.dec_fact ≤ d.taps ∧ inp.length % d.dec_fact = 0 := by
  unfold Decimator.decimate
  split <;> simp_all

theorem cascadeDecimate_isSome (ds : List (Decimator C S)) [AddCommMonoid S]
    [SMul C S] (inp : List S)
    (hwf : ∀ d ∈ ds, 0 < d.dec_fact ∧ d.dec_fact ≤ d.taps)
    (hlen : inp.length % cascadeDecFact ds = 0) :
    (cascadeDecimate ds inp).isSome := by
  induction ds generalizing inp with
  | nil => simp [cascadeDecimate]
  | cons d ds ih =>
      have hd := hwf d (List.mem_cons_self d ds)
      have hprod : cascadeDecFact (d :: ds) =
          d.dec_fact * cascadeDecFact ds := by
        simp [cascadeDecFact]
      rw [hprod] at hlen
      have hdvd : (d.dec_fact * cascadeDecFact ds) ∣ inp.length :=
        Nat.dvd_of_mod_eq_zero hlen
      have hM : d.dec_fact ∣ inp.length :=
        dvd_trans (Dvd.intro _ rfl) hdvd
      have h1 : (d.decimate inp).isSome := by
        rw [decimate_isSome_iff]
        exact ⟨hd.1, hd.2, Nat.mod_eq_zero_of_dvd hM⟩
      obtain ⟨⟨d', mid⟩, hmid⟩ := Option.isSome_iff_exists.mp h1
      have hmidlen : mid.length = inp.length / d.dec_fact :=
        decimate_length d d' inp mid hmid
      have hrest : mid.length % cascadeDecFact ds = 0 := by
        rw [hmidlen]
        exact Nat.mod_eq_zero_of_dvd ((Nat.dvd_div_iff_mul_dvd hM).mpr hdvd)
      have h2 := ih mid (fun d hdm => hwf d (List.mem_cons_of_mem _ hdm)) hrest
      obtain ⟨⟨ds', fin⟩, hfin⟩ := Option.isSome_iff_exists.mp h2
      simp [cascadeDecimate, hmid, hfin]

/-- Claim C1: for every decimator with factor `M > 0` and `taps ≥ M`, and
every input batch of length `k·M` with `k > 0`, `decimate` succeeds and
produces (into a cleared output vector) exactly `k = |in| / M` output
samples, the `j`-th being the FIR sum over the `taps`-tap delay line after
`j+1` shifts of `M` input samples each, the newest at the bottom. -/
theorem C1_decimator_decimate {C S : Type} [AddCommMonoid S] [SMul C S]
    (d : Decimator C S) (inp : List S) (k : ℕ) (hk : 0 < k)
    (hM : 0 < d.dec_fact) (ht : d.dec_fact ≤ d.taps)
    (hlen : inp.length = k * d.dec_fact) :
    ∃ out : List S,
      d.decimate inp =
        some ({ d with Z := delayAfter d.dec_fact d.taps d.Z inp k }, out) ∧
      out.length = k ∧ k = inp.length / d.dec_fact ∧
      ∀ j (hj : j < out.length),
        out.get ⟨j, hj⟩ =
          firSum d.coeff (delayAfter d.dec_fact d.taps d.Z inp (j + 1)) := by
  have hdiv : inp.length / d.dec_fact = k := by
    rw [hlen]; exact Nat.mul_div_cancel k hM
  have hmod : inp.length % d.dec_fact = 0 := by
    rw [hlen]; exact Nat.mul_mod_left k d.dec_fact
  refine ⟨(List.range k).map fun j =>
      firSum d.coeff (delayAfter d.dec_fact d.taps d.Z inp (j + 1)),
    ?_, ?_, hdiv.symm, ?_⟩
  · rw [decimate_eq d inp hM ht hmod, hdiv]
  · simp
  · intro j hj
    simp

/-- Claim C2: the cascade each channelizer variant selects per bandwidth has
overall decimation factor equal to the product of its stage factors, those
products match the table (960 kHz: Wide 5, 20 kHz 30, 10 kHz 60, 6 kHz 60;
2.4 MHz: Wide 15, 20 kHz 75, 10 kHz 150, 6 kHz 150), and
`chSampRate * decFact` equals the tuner rate exactly. -/
theorem C2_channelizer_rates :
    (decFact960 .BW_WIDE = 5 ∧ decFact960 .BW_20K = 30 ∧
      decFact960 .BW_10K = 60 ∧ decFact960 .BW_6K = 60) ∧
    (decFact2400 .BW_WIDE = 15 ∧ decFact2400 .BW_20K = 75 ∧
      decFact2400 .BW_10K = 150 ∧ decFact2400 .BW_6K = 150) ∧
    (∀ (v : ChVariant) (bw : Bandwidth) (C S : Type)
      (ds : List (Decimator C S)),
      ds.map Decimator.dec_fact = chStages v bw →
        cascadeDecFact ds = chDecFact v bw ∧
        chSampRate v bw * chDecFact v bw = tunerRate v) := by
  refine ⟨by decide, by decide, ?_⟩
  intro v bw _C _S ds hds
  refine ⟨?_, ?_⟩
  · rw [cascadeDecFact, hds]; rfl
  · cases v <;> cases bw <;> decide

/-- Witness for C2 at the 960 kHz Wide cascade over integer samples. -/
theorem C2_channelizer_rates_witness :
    ([(⟨5, [1], [1], [0]⟩ : Decimator ℤ ℤ)].map Decimator.dec_fact =
        chStages .Ch960 .BW_WIDE) ∧
    (cascadeDecFact [(⟨5, [1], [1], [0]⟩ : Decimator ℤ ℤ)] =
        chDecFact .Ch960 .BW_WIDE ∧
      chSampRate .Ch960 .BW_WIDE * chDecFact .Ch960 .BW_WIDE =
        tunerRate .Ch960) :=
  ⟨rfl, C2_channelizer_rates.2.2 .Ch960 .BW_WIDE ℤ ℤ _ rfl⟩

/-- Claim C8: for every cascade selected by either channelizer variant
(identified by its list of stage factors) whose decimators satisfy
`taps ≥ dec_fact`, and every input batch whose length is a positive
multiple of the overall decimation factor, every stage's
`in.size() % dec_fact == 0` assertion holds, so the whole cascade
succeeds. -/
theorem C8_cascade_assertions_hold {C S : Type} [AddCommMonoid S] [SMul C S]
    (v : ChVariant) (bw : Bandwidth) (ds : List (Decimator C S))
    (hfacts : ds.map Decimator.dec_fact = chStages v bw)
    (htaps : ∀ d ∈ ds, d.dec_fact ≤ d.taps)
    (inp : List S) (k : ℕ) (hk : 0 < k)
    (hlen : inp.length = k * cascadeDecFact ds) :
    (cascadeDecimate ds inp).isSome := by
  apply cascadeDecimate_isSome
  · intro d hd
    refine ⟨?_, htaps d hd⟩
    have hmem : d.dec_fact ∈ chStages v bw := by
      rw [← hfacts]; exact List.mem_map_of_mem _ hd
    have hpos : ∀ x ∈ chStages v bw, 0 < x := by
      cases v <;> cases bw <;> decide
    exact hpos _ hmem
  · rw [hlen]; exact Nat.mul_mod_left k _

/-- Witness for C8 at the 960 kHz Wide cascade over integer samples. -/
theorem C8_cascade_assertions_hold_witness :
    ([(⟨5, [1, 1, 1, 1, 1], [1, 1, 1, 1, 1], [0, 0, 0, 0, 0]⟩ :
        Decimator ℤ ℤ)].map Decimator.dec_fact = chStages .Ch960 .BW_WIDE) ∧
    (0 : ℕ) < 1 ∧
    ([(0 : ℤ), 0, 0, 0, 0].length =
      1 * cascadeDecFact
        [(⟨5, [1, 1, 1, 1, 1], [1, 1, 1, 1, 1], [0, 0, 0, 0, 0]⟩ :
          Decimator ℤ ℤ)]) ∧
    (cascadeDecimate
      [(⟨5, [1, 1, 1, 1, 1], [1, 1, 1, 1, 1], [0, 0, 0, 0, 0]⟩ :
        Decimator ℤ ℤ)] [(0 : ℤ), 0, 0, 0, 0]).isSome :=
  ⟨rfl, by decide, by decide,
    C8_cascade_assertions_hold .Ch960 .BW_WIDE
      [(⟨5, [1, 1, 1, 1, 1], [1, 1, 1, 1, 1], [0, 0, 0, 0, 0]⟩ :
        Decimator ℤ ℤ)] rfl (by decide) [(0 : ℤ), 0, 0, 0, 0] 1
      (by decide) (by decide)⟩

/-- Witness for C1: factor 2, 3 taps, 4 input samples over the integers. -/
theorem C1_decimator_decimate_witness :
    (0 : ℕ) < 2 ∧
    0 < (⟨2, [1, 2, 3], [1, 2, 3], [0, 0, 0]⟩ : Decimator ℤ ℤ).dec_fact ∧
    (⟨2, [1, 2, 3], [1, 2, 3], [0, 0, 0]⟩ : Decimator ℤ ℤ).dec_fact ≤
      (⟨2, [1, 2, 3], [1, 2, 3], [0, 0, 0]⟩ : Decimator ℤ ℤ).taps ∧
    ([1, 2, 3, 4] : List ℤ).length =
      2 * (⟨2, [1, 2, 3], [1, 2, 3], [0, 0, 0]⟩ : Decimator ℤ ℤ).dec_fact ∧
    ∃ out : List ℤ,
      (⟨2, [1, 2, 3], [1, 2, 3], [0, 0, 0]⟩ : Decimator ℤ ℤ).decimate
          [1, 2, 3, 4] =
        some
          ({ (⟨2, [1, 2, 3], [1, 2, 3], [0, 0, 0]⟩ : Decimator ℤ ℤ) with
              Z := delayAfter
                (⟨2, [1, 2, 3], [1, 2, 3], [0, 0, 0]⟩ :
                  Decimator ℤ ℤ).dec_fact
                (⟨2, [1, 2, 3], [1, 2, 3], [0, 0, 0]⟩ : Decimator ℤ ℤ).taps
                (⟨2, [1, 2, 3], [1, 2, 3], [0, 0, 0]⟩ : Decimator ℤ ℤ).Z
                [1, 2, 3, 4] 2 }, out) ∧
      out.length = 2 ∧
      2 = ([1, 2, 3, 4] : List ℤ).length /
        (⟨2, [1, 2, 3], [1, 2, 3], [0, 0, 0]⟩ : Decimator ℤ ℤ).dec_fact ∧
      ∀ j (hj : j < out.length),
        out.get ⟨j, hj⟩ =
          firSum (⟨2, [1, 2, 3], [1, 2, 3], [0, 0, 0]⟩ :
              Decimator ℤ ℤ).coeff
            (delayAfter
              (⟨2, [1, 2, 3], [1, 2, 3], [0, 0, 0]⟩ :
                Decimator ℤ ℤ).dec_fact
              (⟨2, [1, 2, 3], [1, 2, 3], [0, 0, 0]⟩ : Decimator ℤ ℤ).taps
              (⟨2, [1, 2, 3], [1, 2, 3], [0, 0, 0]⟩ : Decimator ℤ ℤ).Z
              [1, 2, 3, 4] (j + 1)) :=
  ⟨by decide, by decide, by decide, by decide,
    C1_decimator_decimate (⟨2, [1, 2, 3], [1, 2, 3], [0, 0, 0]⟩ :
        Decimator ℤ ℤ) [1, 2, 3, 4] 2 (by decide) (by decide) (by decide)
      (by decide)⟩

theorem gcdSrc_eq_gcd : ∀ b a : ℕ, 0 < b → gcdSrc a b = Nat.gcd a b := by
  intro b
  induction b using Nat.strong_induction_on with
  | _ b ih =>
    intro a hb
    rw [gcdSrc]
    rw [dif_neg (Nat.pos_iff_ne_zero.mp hb)]
    by_cases hr : a % b = 0
    · rw [if_pos hr]
      exact (Nat.dvd_antisymm (Nat.gcd_dvd_right a b)
        (Nat.dvd_gcd (Nat.dvd_of_mod_eq_zero hr) dvd_rfl)).symm
    · rw [if_neg hr]
      rw [ih (a % b) (Nat.mod_lt a hb) b (Nat.pos_of_ne_zero hr)]
      rw [Nat.gcd_comm b (a % b), ← Nat.gcd_rec b a, Nat.gcd_comm]

theorem translateGo_spec (lut : List ℂ) (hl : 0 < lut.length) :
    ∀ (inp : List ℂ) (n : ℕ), n < lut.length →
      translateGo lut n inp =
        ((n + inp.length) % lut.length,
          (List.range inp.length).map fun k =>
            inp.getD k 0 * lut.getD ((n + k) % lut.length) 0) := by
  intro inp
  induction inp with
  | nil =>
      intro n hn
      simp [translateGo, Nat.mod_eq_of_lt hn]
  | cons x xs ih =>
      intro n hn
      have hwrap : (if n + 1 = lut.length then 0 else n + 1) =
          (n + 1) % lut.length := by
        split
        · rename_i h
          rw [h, Nat.mod_self]
        · rename_i h
          exact (Nat.mod_eq_of_lt
            (lt_of_le_of_ne (Nat.succ_le_of_lt hn) h)).symm
      have harith : ∀ k : ℕ,
          ((n + 1) % lut.length + k) % lut.length =
            (n + (k + 1)) % lut.length := by
        intro k
        rw [Nat.mod_add_mod]
        congr 1
        omega
      show (_, x * lut.getD n 0 :: _) = _
      rw [hwrap, ih ((n + 1) % lut.length) (Nat.mod_lt _ hl)]
      refine Prod.ext ?_ ?_
      · show ((n + 1) % lut.length + xs.length) % lut.length = _
        rw [Nat.mod_add_mod]
        congr 1
        simp [Nat.add_comm, Nat.add_assoc, Nat.add_left_comm]
      · show x * lut.getD n 0 :: _ = _
        rw [List.length_cons, List.range_succ_eq_map]
        simp only [List.map_cons, List.map_map]
        congr 1
        · rw [Nat.add_zero, Nat.mod_eq_of_lt hn]
          rfl
        · apply List.map_congr_left
          intro k _
          simp only [Function.comp_apply, List.getD_cons_succ, harith k]

/-- Claim C3: `setOffset` always resets the phase index to 0; with offset 0
the table is empty and `iq_received` is a passthrough; with offset `f ≠ 0`
the table has exactly `N = samp_rate / gcd(samp_rate, |f|)` entries,
`LUT[i] = exp(-i·2π·f·i/samp_rate)`; each output sample is
`in[k] · LUT[(n₀+k) mod N]` and after `K` samples the phase index is
`(n₀ + K) mod N`. -/
theorem C3_translator (t : Translate) (hR : 0 < t.samp_rate) :
    (∀ f : ℤ, (t.setOffset f).n = 0) ∧
    ((t.setOffset 0).exp_lut = [] ∧
      ∀ inp : List ℂ, ((t.setOffset 0).iq_received inp).2 = inp) ∧
    (∀ f : ℤ, f ≠ 0 →
      (t.setOffset f).exp_lut.length =
          t.samp_rate / Nat.gcd t.samp_rate f.natAbs ∧
      ∀ i (hi : i < (t.setOffset f).exp_lut.length),
        (t.setOffset f).exp_lut.get ⟨i, hi⟩ =
          Complex.exp
            (((-2 * Real.pi * (f : ℝ) * (i : ℝ) / (t.samp_rate : ℝ) : ℝ) :
              ℂ) * Complex.I)) ∧
    (∀ inp : List ℂ, 0 < t.exp_lut.length → t.n < t.exp_lut.length →
      (t.iq_received inp).1.n = (t.n + inp.length) % t.exp_lut.length ∧
      (t.iq_received inp).2 =
        ((List.range inp.length).map fun k =>
          inp.getD k 0 * t.exp_lut.getD ((t.n + k) % t.exp_lut.length) 0)) := by
  refine ⟨?_, ⟨?_, ?_⟩, ?_, ?_⟩
  · intro f
    unfold Translate.setOffset
    split <;> rfl
  · simp [Translate.setOffset]
  · intro inp
    simp [Translate.setOffset, Translate.iq_received]
  · intro f hf
    have hlut : (t.setOffset f).exp_lut =
        ((List.range (t.samp_rate / gcdSrc t.samp_rate f.natAbs)).map
          (lutEntry t.samp_rate f)) := by
      unfold Translate.setOffset
      rw [if_neg hf]
    have hgcd : gcdSrc t.samp_rate f.natAbs =
        Nat.gcd t.samp_rate f.natAbs :=
      gcdSrc_eq_gcd f.natAbs t.samp_rate (Int.natAbs_pos.mpr hf)
    constructor
    · rw [hlut, List.length_map, List.length_range, hgcd]
    · intro i hi
      have hi' : i < ((List.range
          (t.samp_rate / gcdSrc t.samp_rate f.natAbs)).map
            (lutEntry t.samp_rate f)).length := by
        rw [← hlut]; exact hi
      have : (t.setOffset f).exp_lut.get ⟨i, hi⟩ =
          lutEntry t.samp_rate f i := by
        have := List.get_of_eq hlut ⟨i, hi⟩
        rw [this]
        simp
      rw [this]
      unfold lutEntry
      congr 1
      apply Complex.ext <;>
        simp [Complex.mul_re, Complex.mul_im]
  · intro inp hlen hn
    unfold Translate.iq_received
    rw [if_pos hlen, translateGo_spec t.exp_lut hlen inp t.n hn]
    exact ⟨rfl, rfl⟩

/-- Witness for C3 at sample rate 4, a two-entry table and phase index 1. -/
theorem C3_translator_witness :
    0 < (Translate.mk 4 [1, Complex.I] 1).samp_rate ∧
    ((∀ f : ℤ, ((Translate.mk 4 [1, Complex.I] 1).setOffset f).n = 0) ∧
      (((Translate.mk 4 [1, Complex.I] 1).setOffset 0).exp_lut = [] ∧
        ∀ inp : List ℂ,
          (((Translate.mk 4 [1, Complex.I] 1).setOffset 0).iq_received
            inp).2 = inp) ∧
      (∀ f : ℤ, f ≠ 0 →
        ((Translate.mk 4 [1, Complex.I] 1).setOffset f).exp_lut.length =
            (Translate.mk 4 [1, Complex.I] 1).samp_rate /
              Nat.gcd (Translate.mk 4 [1, Complex.I] 1).samp_rate
                f.natAbs ∧
        ∀ i (hi : i <
            ((Translate.mk 4 [1, Complex.I] 1).setOffset f).exp_lut.length),
          ((Translate.mk 4 [1, Complex.I] 1).setOffset f).exp_lut.get
              ⟨i, hi⟩ =
            Complex.exp
              (((-2 * Real.pi * (f : ℝ) * (i : ℝ) /
                ((Translate.mk 4 [1, Complex.I] 1).samp_rate : ℝ) : ℝ) :
                ℂ) * Complex.I)) ∧
      (∀ inp : List ℂ,
        0 < (Translate.mk 4 [1, Complex.I] 1).exp_lut.length →
        (Translate.mk 4 [1, Complex.I] 1).n <
          (Translate.mk 4 [1, Complex.I] 1).exp_lut.length →
        ((Translate.mk 4 [1, Complex.I] 1).iq_received inp).1.n =
          ((Translate.mk 4 [1, Complex.I] 1).n + inp.length) %
            (Translate.mk 4 [1, Complex.I] 1).exp_lut.length ∧
        ((Translate.mk 4 [1, Complex.I] 1).iq_received inp).2 =
          ((List.range inp.length).map fun k =>
            inp.getD k 0 *
              (Translate.mk 4 [1, Complex.I] 1).exp_lut.getD
                (((Translate.mk 4 [1, Complex.I] 1).n + k) %
                  (Translate.mk 4 [1, Complex.I] 1).exp_lut.length) 0))) :=
  ⟨by decide, C3_translator (Translate.mk 4 [1, Complex.I] 1) (by decide)⟩

theorem fmDemodBatch_length (st : ℝ × ℝ) (samples : List ℂ) :
    (fmDemodBatch st samples).2.length = samples.length := by
  induction samples generalizing st with
  | nil => rfl
  | cons x xs ih =>
      show ((fmDemodStep st x).2 :: _).length = _
      simp [ih]

theorem fmDemodBatch_getD (st : ℝ × ℝ) (samples : List ℂ) (k : ℕ)
    (hk : k < samples.length) :
    (fmDemodBatch st samples).2.getD k 0 =
      psiVal (if k = 0 then st else nrm (samples.getD (k - 1) 0))
        (nrm (samples.getD k 0)) := by
  induction samples generalizing st k with
  | nil => exact absurd hk (by simp)
  | cons x xs ih =>
      match k with
      | 0 => rfl
      | k + 1 =>
          have hk' : k < xs.length := Nat.lt_of_succ_lt_succ hk
          show (fmDemodBatch (fmDemodStep st x).1 xs).2.getD k 0 = _
          rw [ih (fmDemodStep st x).1 k hk']
          match k with
          | 0 => rfl
          | k + 1 => rfl

theorem fmDemodBatch_fst (st : ℝ × ℝ) (samples : List ℂ) :
    (fmDemodBatch st samples).1 = samples.foldl (fun _ x => nrm x) st := by
  induction samples generalizing st with
  | nil => rfl
  | cons x xs ih =>
      show (fmDemodBatch (fmDemodStep st x).1 xs).1 = _
      rw [ih]
      rfl

theorem fmIq_feeds_audio_dec (d : DemodulatorFm) (samples : List ℂ)
    (d2 : DemodulatorFm) (out : List ℝ)
    (h : d.iq_received samples = some (d2, out)) :
    ∃ (mid : List ℝ) (dd : Decimator ℝ ℝ),
      d.audio_dec.decimate mid = some (dd, out) := by
  unfold DemodulatorFm.iq_received at h
  by_cases hw : d.wb_mode
  · rw [if_pos hw] at h
    obtain ⟨a1, _, hmap⟩ := Option.bind_eq_some.mp h
    obtain ⟨a2, ha2, heq⟩ := Option.map_eq_some'.mp hmap
    refine ⟨a1.2, a2.1, ?_⟩
    simp only [Prod.mk.injEq] at heq
    rw [ha2, ← heq.2]
  · rw [if_neg hw] at h
    obtain ⟨a2, ha2, heq⟩ := Option.map_eq_some'.mp h
    refine ⟨(fmDemodBatch (d.iold, d.qold) samples).2, a2.1, ?_⟩
    simp only [Prod.mk.injEq] at heq
    rw [ha2, ← heq.2]

/-- Claim C4: the FM demodulator processes each batch in order — every
sample is normalized to `s/|s|`, the emitted value is
`ψ = atan2(q·iold − i·qold, i·iold + q·qold)`, the previous-sample state
becomes the current normalized sample; the constructor starts the state at
`(1, 1)`; and the ψ sequence of the batch is what goes into the audio
decimation chain. -/
theorem C4_fm_demodulation (st : ℝ × ℝ) (samples : List ℂ) :
    (fmDemodBatch st samples).2.length = samples.length ∧
    (∀ k, k < samples.length →
      (fmDemodBatch st samples).2.getD k 0 =
        psiVal (if k = 0 then st else nrm (samples.getD (k - 1) 0))
          (nrm (samples.getD k 0))) ∧
    (fmDemodBatch st samples).1 = samples.foldl (fun _ x => nrm x) st ∧
    (∀ (cAudio c160 c192 : List ℝ) (R : ℕ) (D : ℝ),
      (mkDemodulatorFm cAudio c160 c192 R D).iold = 1 ∧
      (mkDemodulatorFm cAudio c160 c192 R D).qold = 1) ∧
    (∀ d : DemodulatorFm, d.iold = st.1 → d.qold = st.2 →
      ∀ (d2 : DemodulatorFm) (out : List ℝ),
        d.iq_received samples = some (d2, out) →
        if d.wb_mode then
          ∃ w : Decimator ℝ ℝ × List ℝ,
            d.audio_dec_wb.decimate (fmDemodBatch st samples).2 = some w ∧
            d.audio_dec.decimate w.2 = some (d2.audio_dec, out)
        else
          d.audio_dec.decimate (fmDemodBatch st samples).2 =
            some (d2.audio_dec, out)) := by
  refine ⟨fmDemodBatch_length st samples,
    fun k hk => fmDemodBatch_getD st samples k hk,
    fmDemodBatch_fst st samples, fun cAudio c160 c192 R D => ⟨rfl, rfl⟩,
    ?_⟩
  intro d h1 h2 d2 out h
  have hst : (d.iold, d.qold) = st := by
    rw [h1, h2]
  unfold DemodulatorFm.iq_received at h
  rw [hst] at h
  cases hwb : d.wb_mode with
  | true =>
      rw [hwb, if_pos rfl] at h
      rw [if_pos rfl]
      obtain ⟨a1, ha1, hmap⟩ := Option.bind_eq_some.mp h
      obtain ⟨a2, ha2, heq⟩ := Option.map_eq_some'.mp hmap
      simp only [Prod.mk.injEq] at heq
      refine ⟨a1, ha1, ?_⟩
      rw [ha2, ← heq.1, ← heq.2]
  | false =>
      rw [hwb, if_neg Bool.false_ne_true] at h
      rw [if_neg Bool.false_ne_true]
      obtain ⟨a2, ha2, heq⟩ := Option.map_eq_some'.mp h
      simp only [Prod.mk.injEq] at heq
      rw [ha2, ← heq.1, ← heq.2]

/-- Witness for C4: one unit sample with initial state `(1, 1)`. -/
theorem C4_fm_demodulation_witness :
    0 < ([(⟨1, 0⟩ : ℂ)] : List ℂ).length ∧
    (fmDemodBatch ((1 : ℝ), (1 : ℝ)) [(⟨1, 0⟩ : ℂ)]).2.getD 0 0 =
      psiVal
        (if 0 = 0 then ((1 : ℝ), (1 : ℝ))
          else nrm (([(⟨1, 0⟩ : ℂ)] : List ℂ).getD (0 - 1) 0))
        (nrm (([(⟨1, 0⟩ : ℂ)] : List ℂ).getD 0 0)) :=
  ⟨by decide,
    (C4_fm_demodulation ((1 : ℝ), (1 : ℝ)) [(⟨1, 0⟩ : ℂ)]).2.1 0
      (by decide)⟩

/-- Claim C5: `setDemodParams(samp_rate, max_dev)` applies
`20·log10((samp_rate/(2π·max_dev))/2)` dB of gain to the 32k→16k audio
decimator, sets wideband mode iff `samp_rate > 32000`, configures the
wideband pre-stage as a 5:1 decimator at 160 kHz and a 6:1 decimator at
192 kHz, and the 32k→16k stage is applied to every batch in both modes. -/
theorem C5_fm_setDemodParams (d : DemodulatorFm) (c160 c192 : List ℝ)
    (R : ℕ) (D : ℝ) :
    ((d.setDemodParams c160 c192 R D).audio_dec.set_coeff =
        d.audio_dec.set_coeff ∧
      (d.setDemodParams c160 c192 R D).audio_dec.coeff =
        d.audio_dec.set_coeff.map (fun c =>
          c * (10 : ℝ) ^
            ((20 * Real.logb 10 ((R : ℝ) / (2 * Real.pi * D) / 2)) /
              20))) ∧
    ((d.setDemodParams c160 c192 R D).wb_mode = true ↔ 32000 < R) ∧
    (R = 160000 →
      (d.setDemodParams c160 c192 R D).audio_dec_wb.dec_fact = 5 ∧
      (d.setDemodParams c160 c192 R D).audio_dec_wb.set_coeff = c160) ∧
    (R = 192000 →
      (d.setDemodParams c160 c192 R D).audio_dec_wb.dec_fact = 6 ∧
      (d.setDemodParams c160 c192 R D).audio_dec_wb.set_coeff = c192) ∧
    (∀ (samples : List ℂ) (d2 : DemodulatorFm) (out : List ℝ),
      (d.setDemodParams c160 c192 R D).iq_received samples =
          some (d2, out) →
        ∃ (mid : List ℝ) (dd : Decimator ℝ ℝ),
          (d.setDemodParams c160 c192 R D).audio_dec.decimate mid =
            some (dd, out)) := by
  refine ⟨⟨rfl, rfl⟩, ?_, ?_, ?_, ?_⟩
  · show decide (32000 < R) = true ↔ 32000 < R
    exact decide_eq_true_iff
  · intro hR
    subst hR
    exact ⟨rfl, rfl⟩
  · intro hR
    subst hR
    exact ⟨rfl, rfl⟩
  · intro samples d2 out h
    exact fmIq_feeds_audio_dec _ samples d2 out h

/-- Witness for C5 at `samp_rate = 160000`. -/
theorem C5_fm_setDemodParams_witness :
    ((160000 : ℕ) = 160000) ∧
    ((DemodulatorFm.mk 1 1 ⟨0, [], [], []⟩ ⟨2, [1], [1], [0]⟩
        false).setDemodParams [1, 2] [3] 160000 5000).audio_dec_wb.dec_fact
        = 5 ∧
    ((DemodulatorFm.mk 1 1 ⟨0, [], [], []⟩ ⟨2, [1], [1], [0]⟩
        false).setDemodParams [1, 2] [3] 160000 5000).audio_dec_wb.set_coeff
        = [1, 2] :=
  ⟨rfl,
    (C5_fm_setDemodParams
      (DemodulatorFm.mk 1 1 ⟨0, [], [], []⟩ ⟨2, [1], [1], [0]⟩ false)
      [1, 2] [3] 160000 5000).2.2.1 rfl⟩

theorem realTrunc_intCast (z : ℤ) : realTrunc ((z : ℝ)) = z := by
  unfold realTrunc
  split
  · exact Int.floor_intCast z
  · exact Int.ceil_intCast z

/-- Claim C6: on `tunerFqChanged(newCenter)` with RF frequency `fq` and
tuner rate `R`, if `|fq − newCenter| > R/2 − 12500` the channel is disabled
and the warning fires exactly when the channel was enabled before;
otherwise — the boundary offset included — the translator offset is set to
`fq − newCenter` (truncated to `int`) and the channel is enabled. -/
theorem C6_tuner_fq_changed (st : DdrState) (R center : ℕ)
    (hR : 25000 ≤ R) :
    (|st.fq - (center : ℝ)| > ((R / 2 - 12500 : ℕ) : ℝ) →
      (tunerFqChanged st R center).1.enabled = false ∧
      (tunerFqChanged st R center).2 = st.enabled ∧
      (tunerFqChanged st R center).1.fqOffset = st.fqOffset) ∧
    (¬(|st.fq - (center : ℝ)| > ((R / 2 - 12500 : ℕ) : ℝ)) →
      (tunerFqChanged st R center).1.enabled = true ∧
      (tunerFqChanged st R center).2 = false ∧
      (tunerFqChanged st R center).1.fqOffset =
        realTrunc (st.fq - (center : ℝ)) ∧
      ∀ z : ℤ, st.fq - (center : ℝ) = (z : ℝ) →
        (tunerFqChanged st R center).1.fqOffset = z) ∧
    (|st.fq - (center : ℝ)| = ((R / 2 - 12500 : ℕ) : ℝ) →
      (tunerFqChanged st R center).1.enabled = true) := by
  refine ⟨?_, ?_, ?_⟩
  · intro hgt
    unfold tunerFqChanged
    rw [if_pos hgt]
    cases he : st.enabled
    · rw [if_neg Bool.false_ne_true]
      exact ⟨he, rfl, rfl⟩
    · rw [if_pos rfl]
      exact ⟨rfl, rfl, rfl⟩
  · intro hle
    unfold tunerFqChanged
    rw [if_neg hle]
    refine ⟨rfl, rfl, rfl, ?_⟩
    intro z hz
    show realTrunc (st.fq - (center : ℝ)) = z
    rw [hz]
    exact realTrunc_intCast z
  · intro heq
    unfold tunerFqChanged
    rw [if_neg (by rw [heq]; exact lt_irrefl _)]

/-- Witness for C6: a fitting offset at tuner rate 960 kHz. -/
theorem C6_tuner_fq_changed_witness :
    (25000 : ℕ) ≤ 960000 ∧
    ((tunerFqChanged (DdrState.mk 0 true 0) 960000 0).1.enabled = true ∧
      (tunerFqChanged (DdrState.mk 0 true 0) 960000 0).2 = false ∧
      (tunerFqChanged (DdrState.mk 0 true 0) 960000 0).1.fqOffset =
        realTrunc ((DdrState.mk 0 true 0).fq - ((0 : ℕ) : ℝ)) ∧
      ∀ z : ℤ, (DdrState.mk 0 true 0).fq - ((0 : ℕ) : ℝ) = (z : ℝ) →
        (tunerFqChanged (DdrState.mk 0 true 0) 960000 0).1.fqOffset = z) :=
  ⟨by decide,
    (C6_tuner_fq_changed (DdrState.mk 0 true 0) 960000 0 (by decide)).2.1
      (by norm_num)⟩

/-- Claim C7: the AM demodulator emits exactly one real sample `|s|` per
input sample, bypassing the audio decimator (so its 10 dB gain never
applies); `setModulation(AM)` selects the 10 kHz bandwidth, whose channel
rate is 16000 Hz for both channelizer variants. -/
theorem C7_am_demodulator (samples : List ℂ) :
    (∀ d : DemodulatorAm,
      (d.iq_received samples).length = samples.length ∧
      ∀ k, k < samples.length →
        (d.iq_received samples).getD k 0 =
          Complex.abs (samples.getD k 0)) ∧
    modBw .MOD_AM = .BW_10K ∧ modIsAm .MOD_AM = true ∧
    chSampRate960 .BW_10K = 16000 ∧ chSampRate2400 .BW_10K = 16000 := by
  refine ⟨?_, rfl, rfl, by decide, by decide⟩
  intro d
  refine ⟨by simp [DemodulatorAm.iq_received], ?_⟩
  intro k hk
  unfold DemodulatorAm.iq_received
  rw [List.getD_eq_getElem?_getD, List.getD_eq_getElem?_getD,
    List.getElem?_map, List.getElem?_eq_getElem hk]
  rfl

/-- Witness for C7: a single sample `3 + 4i`. -/
theorem C7_am_demodulator_witness :
    0 < ([(⟨3, 4⟩ : ℂ)] : List ℂ).length ∧
    ((DemodulatorAm.mk ⟨0, [], [], []⟩).iq_received
        [(⟨3, 4⟩ : ℂ)]).getD 0 0 =
      Complex.abs (([(⟨3, 4⟩ : ℂ)] : List ℂ).getD 0 0) :=
  ⟨by decide,
    ((C7_am_demodulator [(⟨3, 4⟩ : ℂ)]).1
      (DemodulatorAm.mk ⟨0, [], [], []⟩)).2 0 (by decide)⟩

theorem ddrInitialize_dup (reg : Registry) (nm : String) (id : ℕ)
    (cfg : DdrConfig) (h : (List.lookup nm reg).isSome) :
    ddrInitialize reg nm id cfg = (reg, false) := by
  unfold ddrInitialize
  rw [if_pos h]

/-- Claim C9: initializing a second DDR whose name is already registered
reports the duplicate-name error (returns `false`) and leaves the registry
unchanged: the existing mapping for that name and every other entry stay
as they were. -/
theorem C9_duplicate_name (reg : Registry) (nm : String) (id id0 : ℕ)
    (cfg : DdrConfig) (h : List.lookup nm reg = some id0) :
    ddrInitialize reg nm id cfg = (reg, false) ∧
    List.lookup nm (ddrInitialize reg nm id cfg).1 = some id0 ∧
    ∀ nm2 : String, List.lookup nm2 (ddrInitialize reg nm id cfg).1 =
      List.lookup nm2 reg := by
  have hs : (List.lookup nm reg).isSome := by
    rw [h]; rfl
  rw [ddrInitialize_dup reg nm id cfg hs]
  exact ⟨rfl, h, fun _ => rfl⟩

/-- Witness for C9: a one-entry registry and a clashing name. -/
theorem C9_duplicate_name_witness :
    List.lookup "RX1" ([("RX1", 0)] : Registry) = some 0 ∧
    (ddrInitialize [("RX1", 0)] "RX1" 1
        (DdrConfig.mk none none none false 0 false) =
      (([("RX1", 0)] : Registry), false) ∧
    List.lookup "RX1"
        (ddrInitialize [("RX1", 0)] "RX1" 1
          (DdrConfig.mk none none none false 0 false)).1 = some 0 ∧
    ∀ nm2 : String,
      List.lookup nm2
          (ddrInitialize [("RX1", 0)] "RX1" 1
            (DdrConfig.mk none none none false 0 false)).1 =
        List.lookup nm2 ([("RX1", 0)] : Registry)) :=
  ⟨rfl, C9_duplicate_name [("RX1", 0)] "RX1" 1 0
    (DdrConfig.mk none none none false 0 false) rfl⟩

theorem ddrInitialize_fst (reg : Registry) (nm : String) (id : ℕ)
    (cfg : DdrConfig) (habsent : List.lookup nm reg = none) :
    (ddrInitialize reg nm id cfg).1 = (nm, id) :: reg := by
  have hns : ¬(List.lookup nm reg).isSome = true := by
    rw [habsent]; simp
  unfold ddrInitialize
  rw [if_neg hns]
  split_ifs <;> rfl

theorem ddrInitialize_snd_false (reg : Registry) (nm : String) (id : ℕ)
    (cfg : DdrConfig) (habsent : List.lookup nm reg = none)
    (hfault : cfg.fq = none ∨ cfg.wbrx = none ∨
      ¬(cfg.modulation.getD "FM" = "FM" ∨
        cfg.modulation.getD "FM" = "WBFM" ∨
        cfg.modulation.getD "FM" = "AM")) :
    (ddrInitialize reg nm id cfg).2 = false := by
  have hns : ¬(List.lookup nm reg).isSome = true := by
    rw [habsent]; simp
  unfold ddrInitialize
  rw [if_neg hns]
  rcases hfault with hf | hf | hf
  · rw [if_pos (by rw [hf]; rfl)]
  · split_ifs <;> simp_all
  · split_ifs <;> simp_all

/-- Claim C10: `Ddr::initialize` registers the name before reading the
`FQ`, `WBRX` and `MODULATION` keys, so when it fails on any of them the
name stays mapped to the failed instance: `find` still returns it, a
second `initialize` under that name fails as a duplicate, and only
destruction removes the entry. -/
theorem C10_failed_init_keeps_name (reg : Registry) (nm : String)
    (id id2 : ℕ) (cfg cfg2 : DdrConfig)
    (habsent : List.lookup nm reg = none)
    (hfault : cfg.fq = none ∨ cfg.wbrx = none ∨
      ¬(cfg.modulation.getD "FM" = "FM" ∨
        cfg.modulation.getD "FM" = "WBFM" ∨
        cfg.modulation.getD "FM" = "AM")) :
    (ddrInitialize reg nm id cfg).2 = false ∧
    (ddrInitialize reg nm id cfg).1 = (nm, id) :: reg ∧
    List.lookup nm (ddrInitialize reg nm id cfg).1 = some id ∧
    ddrInitialize (ddrInitialize reg nm id cfg).1 nm id2 cfg2 =
      ((ddrInitialize reg nm id cfg).1, false) ∧
    List.lookup nm (ddrDestroy (ddrInitialize reg nm id cfg).1 nm) =
      none := by
  have hfst := ddrInitialize_fst reg nm id cfg habsent
  have hlook : List.lookup nm (ddrInitialize reg nm id cfg).1 = some id := by
    rw [hfst]
    simp [List.lookup]
  refine ⟨ddrInitialize_snd_false reg nm id cfg habsent hfault, hfst,
    hlook, ?_, ?_⟩
  · exact ddrInitialize_dup _ nm id2 cfg2 (by rw [hlook]; rfl)
  · rw [hfst]
    unfold ddrDestroy
    rw [List.eraseP_cons_of_pos (by simp)]
    exact habsent

/-- Witness for C10: an empty registry and a configuration missing `FQ`. -/
theorem C10_failed_init_keeps_name_witness :
    List.lookup "RX1" ([] : Registry) = none ∧
    (DdrConfig.mk none (some "WBRX1") none true 960000 true).fq = none ∧
    ((ddrInitialize [] "RX1" 0
        (DdrConfig.mk none (some "WBRX1") none true 960000 true)).2 =
      false ∧
    (ddrInitialize [] "RX1" 0
        (DdrConfig.mk none (some "WBRX1") none true 960000 true)).1 =
      [("RX1", 0)] ∧
    List.lookup "RX1"
        (ddrInitialize [] "RX1" 0
          (DdrConfig.mk none (some "WBRX1") none true 960000 true)).1 =
      some 0 ∧
    ddrInitialize
        (ddrInitialize [] "RX1" 0
          (DdrConfig.mk none (some "WBRX1") none true 960000 true)).1
        "RX1" 1 (DdrConfig.mk none none none false 0 false) =
      ((ddrInitialize [] "RX1" 0
          (DdrConfig.mk none (some "WBRX1") none true 960000 true)).1,
        false) ∧
    List.lookup "RX1"
        (ddrDestroy
          (ddrInitialize [] "RX1" 0
            (DdrConfig.mk none (some "WBRX1") none true 960000 true)).1
          "RX1") = none) :=
  ⟨rfl, rfl,
    C10_failed_init_keeps_name [] "RX1" 0 1
      (DdrConfig.mk none (some "WBRX1") none true 960000 true)
      (DdrConfig.mk none none none false 0 false) rfl (Or.inl rfl)⟩

end Ddr
